import Mathlib

/-!
# Verification of `NestContainer` (src/src/core/injector/container.ts)

A shallow embedding of the module dependency-graph container and proofs of
its specified properties.

Conventions of the embedding:
* Type identifiers (`Type<any>`) are opaque, modelled as `Nat`.
* A module reference (`Type<any> | DynamicModule`) is the inductive
  `ModuleRef`: static references carry only a type identifier; dynamic
  descriptors also carry the optional `modules` and `imports` lists of
  nested module references (the fields `NestContainer` itself reads).
* JS `Map`s are insertion-ordered association lists with unique keys;
  `Map.set` replaces in place for an existing key and appends otherwise.
* Throwing methods return the (unchanged) state paired with an error value:
  in the source every `throw` happens before any mutation, so the state
  component at an error is the input state.
* `Reflect.getMetadata(GLOBAL_MODULE_METADATA, type)` is an external
  collaborator; it is passed in as a pure predicate `g : Nat → Bool`.
-/

set_option autoImplicit false

/-- A module reference: either a static type, or a dynamic-module descriptor
`{ module: type, modules?: [...], imports?: [...] }` whose nested lists hold
further module references. -/
inductive ModuleRef : Type where
  | static (t : Nat)
  | dynamic (t : Nat) (modules? : Option (List ModuleRef))
      (imports? : Option (List ModuleRef))

mutual

/-- Decidable equality on module references. -/
def ModuleRef.decEq (a b : ModuleRef) : Decidable (a = b) :=
  match a, b with
  | .static t, .static u =>
    match Nat.decEq t u with
    | .isTrue h => .isTrue (by rw [h])
    | .isFalse h => .isFalse (by intro hc; injection hc with e; exact h e)
  | .static _, .dynamic _ _ _ => .isFalse (by intro hc; exact ModuleRef.noConfusion hc)
  | .dynamic _ _ _, .static _ => .isFalse (by intro hc; exact ModuleRef.noConfusion hc)
  | .dynamic t ms is, .dynamic u ns js =>
    match Nat.decEq t u, decEqOptList ms ns, decEqOptList is js with
    | .isTrue h1, .isTrue h2, .isTrue h3 => .isTrue (by rw [h1, h2, h3])
    | .isFalse h1, _, _ =>
      .isFalse (by intro hc; injection hc with e1 e2 e3; exact h1 e1)
    | _, .isFalse h2, _ =>
      .isFalse (by intro hc; injection hc with e1 e2 e3; exact h2 e2)
    | _, _, .isFalse h3 =>
      .isFalse (by intro hc; injection hc with e1 e2 e3; exact h3 e3)
termination_by sizeOf a

/-- Decidable equality on optional lists of module references. -/
def decEqOptList (a b : Option (List ModuleRef)) : Decidable (a = b) :=
  match a, b with
  | none, none => .isTrue rfl
  | none, some _ => .isFalse (by intro hc; exact Option.noConfusion hc)
  | some _, none => .isFalse (by intro hc; exact Option.noConfusion hc)
  | some l, some l' =>
    match decEqModList l l' with
    | .isTrue h => .isTrue (by rw [h])
    | .isFalse h => .isFalse (by intro hc; injection hc with e; exact h e)
termination_by sizeOf a

/-- Decidable equality on lists of module references. -/
def decEqModList (a b : List ModuleRef) : Decidable (a = b) :=
  match a, b with
  | [], [] => .isTrue rfl
  | [], _ :: _ => .isFalse (by intro hc; exact List.noConfusion hc)
  | _ :: _, [] => .isFalse (by intro hc; exact List.noConfusion hc)
  | m :: l, n :: l' =>
    match ModuleRef.decEq m n, decEqModList l l' with
    | .isTrue h1, .isTrue h2 => .isTrue (by rw [h1, h2])
    | .isFalse h1, _ =>
      .isFalse (by intro hc; injection hc with e1 e2; exact h1 e1)
    | _, .isFalse h2 =>
      .isFalse (by intro hc; injection hc with e1 e2; exact h2 e2)
termination_by sizeOf a

end

instance : DecidableEq ModuleRef := ModuleRef.decEq

/-- The dynamic configuration extracted from a dynamic-module descriptor:
everything except the `module` field (the fields the container reads). -/
structure DynMeta : Type where
  modules? : Option (List ModuleRef)
  imports? : Option (List ModuleRef)
  deriving DecidableEq

/-- Modelled from the spec: `ModuleTokenFactory.create` (the factory class is
not under src/). The spec requires a token deterministically derived from the
(type identifier, scope, dynamic configuration) triple, identical triples
giving identical tokens and distinct triples giving distinct tokens; the
triple itself is that token. -/
structure Token : Type where
  type : Nat
  scope : List Nat
  dyn : Option DynMeta
  deriving DecidableEq

/-- Modelled from the spec: a Module Record (class `Module` is not under
src/): its type identifier, scope, and the sets of related modules,
components, injectables, exported components and routes it owns. Related
modules are non-owning references to records owned by the Registry; since
the Registry holds exactly one record per token, a reference is identified
by the referenced record's token. -/
structure ModuleRec : Type where
  metatype : Nat
  scope : List Nat
  relatedModules : List Token
  components : List Nat
  injectables : List Nat
  exportedComponents : List Nat
  routes : List Nat
  deriving DecidableEq

/-- Modelled from the spec: a fresh Module Record (`new Module(type, scope,
container)`); all owned sets start empty, the container back-reference is
non-owning and carries no information. -/
def ModuleRec.new (t : Nat) (scope : List Nat) : ModuleRec :=
  ⟨t, scope, [], [], [], [], []⟩

/-- Append an element to a list unless already present (JS `Set.prototype.add`:
idempotent, insertion-ordered). -/
def insertIfAbsent {α : Type} [DecidableEq α] (l : List α) (a : α) : List α :=
  if a ∈ l then l else l ++ [a]

/-- Modelled from the spec: `Module.prototype.addRelatedModule(other)` — adds
a non-owning edge; defensive no-op when `other` is `undefined`. -/
def ModuleRec.addRelatedModule (m : ModuleRec) (other : Option Token) : ModuleRec :=
  match other with
  | none => m
  | some t => { m with relatedModules := insertIfAbsent m.relatedModules t }

/-- Modelled from the spec: `Module.prototype.addComponent(componentRef)` —
registers a provider under a derived identifier and returns that identifier;
re-registration of the same identifier is idempotent. The derived identifier
of an opaque component reference is the reference itself. -/
def ModuleRec.addComponent (m : ModuleRec) (comp : Nat) : ModuleRec × Nat :=
  ({ m with components := insertIfAbsent m.components comp }, comp)

/-- Modelled from the spec: `Module.prototype.addInjectable`. -/
def ModuleRec.addInjectable (m : ModuleRec) (inj : Nat) : ModuleRec :=
  { m with injectables := insertIfAbsent m.injectables inj }

/-- Modelled from the spec: `Module.prototype.addExportedComponent`. -/
def ModuleRec.addExportedComponent (m : ModuleRec) (comp : Nat) : ModuleRec :=
  { m with exportedComponents := insertIfAbsent m.exportedComponents comp }

/-- Modelled from the spec: `Module.prototype.addRoute`. -/
def ModuleRec.addRoute (m : ModuleRec) (ctrl : Nat) : ModuleRec :=
  { m with routes := insertIfAbsent m.routes ctrl }

/-- The two error kinds `NestContainer` raises. -/
inductive NestError : Type where
  | invalidModule (scope : List Nat)
  | unknownModule
  deriving DecidableEq

/-- Insertion-ordered association list: does the map hold the key?
(JS `Map.prototype.has`.) -/
def keyMem {α : Type} (l : List (Token × α)) (k : Token) : Bool :=
  l.any fun p => p.1 = k

/-- Insertion-ordered association list: value at a key
(JS `Map.prototype.get`). -/
def keyGet {α : Type} (l : List (Token × α)) (k : Token) : Option α :=
  (l.find? fun p => p.1 = k).map Prod.snd

/-- Insertion-ordered association list: `Map.prototype.set` — replace in
place when the key is present, append otherwise. -/
def keySet {α : Type} (l : List (Token × α)) (k : Token) (v : α) :
    List (Token × α) :=
  if keyMem l k then l.map fun p => if p.1 = k then (k, v) else p
  else l ++ [(k, v)]

/-- The state of a `NestContainer`: the Registry of Module Records
(`modules`, a `ModulesContainer`, i.e. an insertion-ordered token-keyed map),
the global-module set (`globalModules`, a `Set<Module>` of records owned by
the Registry, identified by their tokens), and the Dynamic Metadata Store
(`dynamicModulesMetadata`). -/
structure NestContainer : Type where
  modules : List (Token × ModuleRec)
  globalModules : List Token
  dynamicModulesMetadata : List (Token × DynMeta)
  deriving DecidableEq

/-- A freshly constructed container: all three stores empty. -/
def NestContainer.empty : NestContainer := ⟨[], [], []⟩

/-- `extractMetadata`: a static reference is `(type, none)`; a dynamic
descriptor splits into its type and its dynamic configuration. -/
def extractMetadata (m : ModuleRef) : Nat × Option DynMeta :=
  match m with
  | .static t => (t, none)
  | .dynamic t ms is => (t, some ⟨ms, is⟩)

/-- The token `addModule` computes for a reference registered at a scope:
`moduleTokenFactory.create(type, scope, dynamicMetadata)`. -/
def tokenOf (m : ModuleRef) (scope : List Nat) : Token :=
  ⟨(extractMetadata m).1, scope, (extractMetadata m).2⟩

/-- `this.modules.has(token)`. -/
def NestContainer.hasToken (c : NestContainer) (t : Token) : Bool :=
  keyMem c.modules t

/-- `this.modules.get(token)`. -/
def NestContainer.getModule (c : NestContainer) (t : Token) : Option ModuleRec :=
  keyGet c.modules t

/-- `this.modules.set(token, module)`. -/
def NestContainer.setModule (c : NestContainer) (t : Token) (m : ModuleRec) :
    NestContainer :=
  { c with modules := keySet c.modules t m }

/-- `this.dynamicModulesMetadata.set(token, metadata)`. -/
def NestContainer.setDynMeta (c : NestContainer) (t : Token) (d : DynMeta) :
    NestContainer :=
  { c with dynamicModulesMetadata := keySet c.dynamicModulesMetadata t d }

/-- `addGlobalModule(module)`: add the record to the global-module set. -/
def NestContainer.addGlobalModule (c : NestContainer) (t : Token) : NestContainer :=
  { c with globalModules := insertIfAbsent c.globalModules t }

mutual

/-- The infallible body of `addModule` (after the `InvalidModuleException`
guard): extract `(type, dynamicMetadata)`, compute the token, stop if the
Registry already has it, otherwise create and store a fresh Module Record,
run `addDynamicMetadata(token, dynamicMetadata, scope.concat(type))`
(which stores the configuration and recursively registers its `modules` and
`imports` lists), and finally add the record to the global set when the
external metadata flags the type as global. -/
def addModuleCore (g : Nat → Bool) (m : ModuleRef) (scope : List Nat)
    (c : NestContainer) : NestContainer :=
  match m with
  | .static t =>
    let token : Token := ⟨t, scope, none⟩
    if c.hasToken token then c
    else
      let c1 := c.setModule token (ModuleRec.new t scope)
      if g t then c1.addGlobalModule token else c1
  | .dynamic t ms is =>
    let token : Token := ⟨t, scope, some ⟨ms, is⟩⟩
    if c.hasToken token then c
    else
      let c1 := c.setModule token (ModuleRec.new t scope)
      let c2 := c1.setDynMeta token ⟨ms, is⟩
      let c3 := addDynamicModules g ms (scope ++ [t]) c2
      let c4 := addDynamicModules g is (scope ++ [t]) c3
      if g t then c4.addGlobalModule token else c4
termination_by sizeOf m

/-- `addDynamicModules(modules, scope)`: no-op when the list is absent,
otherwise register each listed module reference at the given scope, in
order. -/
def addDynamicModules (g : Nat → Bool) (ms : Option (List ModuleRef))
    (scope : List Nat) (c : NestContainer) : NestContainer :=
  match ms with
  | none => c
  | some l => addModuleList g l scope c
termination_by sizeOf ms

/-- Left-to-right registration of a list of module references
(`modules.map(module => this.addModule(module, scope))`). -/
def addModuleList (g : Nat → Bool) (l : List ModuleRef) (scope : List Nat)
    (c : NestContainer) : NestContainer :=
  match l with
  | [] => c
  | m :: rest => addModuleList g rest scope (addModuleCore g m scope c)
termination_by sizeOf l

end

/-- `addModule(metatype, scope)`: throws `InvalidModuleException(scope)` when
the reference is absent, otherwise runs the registration body. The state
component of the result is the container after the call (unchanged when the
error is raised, since the guard precedes every mutation). -/
def NestContainer.addModule (c : NestContainer) (g : Nat → Bool)
    (m : Option ModuleRef) (scope : List Nat) :
    NestContainer × Option NestError :=
  match m with
  | none => (c, some (NestError.invalidModule scope))
  | some r => (addModuleCore g r scope c, none)

/-- `addRelatedModule(relatedModule, token)`: return unchanged when the owner
token is unknown; otherwise normalize the related reference, recompute its
token with the owner record's scope extended by the owner's metatype
(`[].concat(module.scope, parent)`), look that token up in the Registry, and
hand the (possibly missing) result to the owner record's defensive
`addRelatedModule`. A record reference is its token (the Registry holds one
record per token). -/
def NestContainer.addRelatedModule (c : NestContainer) (relatedModule : ModuleRef)
    (token : Token) : NestContainer :=
  match keyGet c.modules token with
  | none => c
  | some module =>
    let parent := module.metatype
    let type := (extractMetadata relatedModule).1
    let dynamicMetadata := (extractMetadata relatedModule).2
    let relatedModuleToken : Token := ⟨type, module.scope ++ [parent], dynamicMetadata⟩
    let related : Option Token :=
      if c.hasToken relatedModuleToken then some relatedModuleToken else none
    { c with modules := keySet c.modules token (module.addRelatedModule related) }

/-- `addComponent(component, token)`: `UnknownModuleException` when the token
is not registered (state unchanged, the throw precedes every mutation);
otherwise delegate to the Module Record and return the derived identifier. -/
def NestContainer.addComponent (c : NestContainer) (comp : Nat) (token : Token) :
    NestContainer × Except NestError Nat :=
  match keyGet c.modules token with
  | none => (c, Except.error NestError.unknownModule)
  | some m =>
    ({ c with modules := keySet c.modules token (m.addComponent comp).1 },
      Except.ok (m.addComponent comp).2)

/-- `addInjectable(injectable, token)`: `UnknownModuleException` when the
token is not registered; otherwise delegate to the Module Record. -/
def NestContainer.addInjectable (c : NestContainer) (inj : Nat) (token : Token) :
    NestContainer × Option NestError :=
  match keyGet c.modules token with
  | none => (c, some NestError.unknownModule)
  | some m =>
    ({ c with modules := keySet c.modules token (m.addInjectable inj) }, none)

/-- `addExportedComponent(exportedComponent, token)`:
`UnknownModuleException` when the token is not registered; otherwise delegate
to the Module Record. -/
def NestContainer.addExportedComponent (c : NestContainer) (comp : Nat)
    (token : Token) : NestContainer × Option NestError :=
  match keyGet c.modules token with
  | none => (c, some NestError.unknownModule)
  | some m =>
    ({ c with modules := keySet c.modules token (m.addExportedComponent comp) },
      none)

/-- `addController(controller, token)`: `UnknownModuleException` when the
token is not registered; otherwise delegate to the Module Record's
`addRoute`. -/
def NestContainer.addController (c : NestContainer) (ctrl : Nat) (token : Token) :
    NestContainer × Option NestError :=
  match keyGet c.modules token with
  | none => (c, some NestError.unknownModule)
  | some m =>
    ({ c with modules := keySet c.modules token (m.addRoute ctrl) }, none)

/-- `clear()`: `this.modules.clear()` — and nothing else. -/
def NestContainer.clear (c : NestContainer) : NestContainer :=
  { c with modules := [] }

/-- Modelled from the spec: `Module.prototype.replace(toReplace, options)`
(class `Module` is not under src/) swaps the implementation behind a
registered component/injectable while preserving its identifier; every field
this embedding tracks (identifier sets, scope, relations) is unchanged. -/
def ModuleRec.replace (m : ModuleRec) (toReplace : Nat) : ModuleRec :=
  let _ := toReplace
  m

/-- `replace(toReplace, options)`: ask every registered module to substitute
the component. -/
def NestContainer.replace (c : NestContainer) (toReplace : Nat) : NestContainer :=
  { c with modules := c.modules.map fun p => (p.1, p.2.replace toReplace) }

/-- `bindGlobalModuleToModule(module, globalModule)`: skip the self-edge,
otherwise add the global record to the module's related set. Records are
identified by their tokens. -/
def bindGlobalModuleToModule (mtok gtok : Token) (m : ModuleRec) : ModuleRec :=
  if mtok = gtok then m else m.addRelatedModule (some gtok)

/-- `bindGlobalsToRelatedModules(module)`: fan out an edge from the module to
every member of the global-module set. -/
def bindGlobalsToRelatedModules (globals : List Token) (mtok : Token)
    (m : ModuleRec) : ModuleRec :=
  globals.foldl (fun r g => bindGlobalModuleToModule mtok g r) m

/-- `bindGlobalScope()`: one pass over every registered module in insertion
order, fanning out the global edges. -/
def NestContainer.bindGlobalScope (c : NestContainer) : NestContainer :=
  { c with modules := c.modules.map fun p =>
      (p.1, bindGlobalsToRelatedModules c.globalModules p.1 p.2) }

/-- The list-valued fields of a `DynamicModule` the store can be queried
for in this embedding. -/
inductive MetaKey : Type where
  | modulesKey
  | importsKey
  deriving DecidableEq

/-- Field access `metadata[metadataKey]` on a stored configuration. -/
def DynMeta.getKey (d : DynMeta) (k : MetaKey) : Option (List ModuleRef) :=
  match k with
  | .modulesKey => d.modules?
  | .importsKey => d.imports?

/-- `getDynamicMetadataByToken(token, metadataKey)`: the stored list when the
token has metadata and the field is present (a present empty list is
returned as-is), and `[]` otherwise. -/
def NestContainer.getDynamicMetadataByToken (c : NestContainer) (token : Token)
    (k : MetaKey) : List ModuleRef :=
  match keyGet c.dynamicModulesMetadata token with
  | some metadata =>
    match metadata.getKey k with
    | some l => l
    | none => []
  | none => []

/-- Containers reachable from a fresh container by the mutating operations of
`NestContainer` (for throwing operations, the post-state of the call). -/
inductive Reachable : NestContainer → Prop where
  | empty : Reachable NestContainer.empty
  | addModule (g : Nat → Bool) (m : Option ModuleRef) (scope : List Nat)
      {c : NestContainer} : Reachable c → Reachable (c.addModule g m scope).1
  | addRelatedModule (r : ModuleRef) (t : Token) {c : NestContainer} :
      Reachable c → Reachable (c.addRelatedModule r t)
  | addComponent (x : Nat) (t : Token) {c : NestContainer} :
      Reachable c → Reachable (c.addComponent x t).1
  | addInjectable (x : Nat) (t : Token) {c : NestContainer} :
      Reachable c → Reachable (c.addInjectable x t).1
  | addExportedComponent (x : Nat) (t : Token) {c : NestContainer} :
      Reachable c → Reachable (c.addExportedComponent x t).1
  | addController (x : Nat) (t : Token) {c : NestContainer} :
      Reachable c → Reachable (c.addController x t).1
  | bindGlobalScope {c : NestContainer} :
      Reachable c → Reachable c.bindGlobalScope
  | replace (x : Nat) {c : NestContainer} :
      Reachable c → Reachable (c.replace x)
  | clear {c : NestContainer} : Reachable c → Reachable c.clear

/-- The Registry never holds two entries for one token. -/
def NestContainer.uniqueKeys (c : NestContainer) : Prop :=
  (c.modules.map Prod.fst).Nodup

/-- Every Module Record matches its token: the record's metatype and scope
are the token's type and scope. -/
def NestContainer.coherent (c : NestContainer) : Prop :=
  ∀ p ∈ c.modules, p.2.metatype = p.1.type ∧ p.2.scope = p.1.scope

/-- No Module Record is related to itself. -/
def NestContainer.selfFree (c : NestContainer) : Prop :=
  ∀ p ∈ c.modules, p.1 ∉ p.2.relatedModules

/-! ## Association-list and set lemmas -/

theorem mem_insertIfAbsent {α : Type} [DecidableEq α] (l : List α) (a x : α) :
    x ∈ insertIfAbsent l a ↔ x ∈ l ∨ x = a := by
  unfold insertIfAbsent
  split
  · constructor
    · exact fun h => Or.inl h
    · rintro (h | rfl) <;> assumption
  · simp

theorem keyMem_iff {α : Type} (l : List (Token × α)) (k : Token) :
    keyMem l k = true ↔ k ∈ l.map Prod.fst := by
  simp [keyMem, List.any_eq_true]

theorem keyGet_eq_none {α : Type} (l : List (Token × α)) (k : Token) :
    keyGet l k = none ↔ keyMem l k = false := by
  induction l with
  | nil => simp [keyGet, keyMem]
  | cons p l ih =>
    by_cases h : p.1 = k
    · simp [keyGet, keyMem, List.find?_cons, h]
    · simp only [keyGet, keyMem, List.find?_cons_of_neg, List.any_cons] at ih ⊢
      simp [h, ih]

theorem keyMem_append {α : Type} (l l' : List (Token × α)) (k : Token) :
    keyMem (l ++ l') k = (keyMem l k || keyMem l' k) := by
  simp [keyMem, List.any_append]

theorem keySet_of_not_mem {α : Type} {l : List (Token × α)} {k : Token} (v : α)
    (h : keyMem l k = false) : keySet l k v = l ++ [(k, v)] := by
  simp [keySet, h]

theorem keyGet_replace_self {α : Type} {l : List (Token × α)} {k : Token}
    (v : α) (h : keyMem l k = true) :
    keyGet (l.map fun p => if p.1 = k then (k, v) else p) k = some v := by
  induction l with
  | nil => simp [keyMem] at h
  | cons p l ih =>
    by_cases hp : p.1 = k
    · simp [keyGet, List.find?_cons, hp]
    · have h' : keyMem l k = true := by simpa [keyMem, hp] using h
      simpa [keyGet, List.find?_cons, hp] using ih h'

theorem keyGet_replace_other {α : Type} (l : List (Token × α)) {k k' : Token}
    (v : α) (h : k' ≠ k) :
    keyGet (l.map fun p => if p.1 = k then (k, v) else p) k' = keyGet l k' := by
  induction l with
  | nil => simp [keyGet]
  | cons p l ih =>
    by_cases hp : p.1 = k
    · have h1 : k ≠ k' := Ne.symm h
      have h2 : ¬ p.1 = k' := by rw [hp]; exact h1
      simpa [keyGet, List.find?_cons, hp, h1, h2] using ih
    · by_cases hp' : p.1 = k'
      · simp [keyGet, List.find?_cons, hp, hp', h]
      · simpa [keyGet, List.find?_cons, hp, hp'] using ih

theorem keyGet_append_right {α : Type} {l : List (Token × α)}
    (l' : List (Token × α)) {k : Token} (h : keyGet l k = none) :
    keyGet (l ++ l') k = keyGet l' k := by
  have hf : (l.find? fun p => p.1 = k) = none := by
    cases hx : l.find? fun p => p.1 = k
    · rfl
    · rw [keyGet, hx] at h; simp at h
  rw [keyGet, List.find?_append, hf, Option.none_or, keyGet]

theorem keyGet_append_left {α : Type} {l : List (Token × α)}
    (l' : List (Token × α)) {k : Token} {v : α} (h : keyGet l k = some v) :
    keyGet (l ++ l') k = some v := by
  rw [keyGet] at h
  obtain ⟨p, hp, hv⟩ := Option.map_eq_some'.mp h
  rw [keyGet, List.find?_append, hp]
  simp [hv]

theorem keyGet_keySet_self {α : Type} (l : List (Token × α)) (k : Token) (v : α) :
    keyGet (keySet l k v) k = some v := by
  unfold keySet
  split
  · next hmem => exact keyGet_replace_self v hmem
  · next hmem =>
    have h0 : keyGet l k = none := by
      rw [keyGet_eq_none]; simpa using hmem
    rw [keyGet_append_right _ h0]
    simp [keyGet, List.find?_cons]

theorem keyMem_keySet_self {α : Type} (l : List (Token × α)) (k : Token) (v : α) :
    keyMem (keySet l k v) k = true := by
  cases hb : keyMem (keySet l k v) k with
  | true => rfl
  | false =>
    have := (keyGet_eq_none (keySet l k v) k).mpr hb
    rw [keyGet_keySet_self] at this
    exact absurd this (by simp)

theorem keyGet_keySet_other {α : Type} (l : List (Token × α)) {k k' : Token}
    (v : α) (h : k' ≠ k) : keyGet (keySet l k v) k' = keyGet l k' := by
  unfold keySet
  split
  · exact keyGet_replace_other l v h
  · cases hg : keyGet l k' with
    | some w => rw [keyGet_append_left _ hg]
    | none =>
      rw [keyGet_append_right _ hg]
      simp [keyGet, List.find?_cons, Ne.symm h]

theorem keys_keySet_of_not_mem {α : Type} {l : List (Token × α)} {k : Token}
    (v : α) (h : keyMem l k = false) :
    (keySet l k v).map Prod.fst = l.map Prod.fst ++ [k] := by
  rw [keySet_of_not_mem v h]
  simp

/-! ## Container projections -/

@[simp] theorem setModule_modules (c : NestContainer) (t : Token) (m : ModuleRec) :
    (c.setModule t m).modules = keySet c.modules t m := rfl

@[simp] theorem setModule_dynMeta (c : NestContainer) (t : Token) (m : ModuleRec) :
    (c.setModule t m).dynamicModulesMetadata = c.dynamicModulesMetadata := rfl

@[simp] theorem setModule_globals (c : NestContainer) (t : Token) (m : ModuleRec) :
    (c.setModule t m).globalModules = c.globalModules := rfl

@[simp] theorem setDynMeta_modules (c : NestContainer) (t : Token) (d : DynMeta) :
    (c.setDynMeta t d).modules = c.modules := rfl

@[simp] theorem setDynMeta_dynMeta (c : NestContainer) (t : Token) (d : DynMeta) :
    (c.setDynMeta t d).dynamicModulesMetadata =
      keySet c.dynamicModulesMetadata t d := rfl

@[simp] theorem setDynMeta_globals (c : NestContainer) (t : Token) (d : DynMeta) :
    (c.setDynMeta t d).globalModules = c.globalModules := rfl

@[simp] theorem addGlobalModule_modules (c : NestContainer) (t : Token) :
    (c.addGlobalModule t).modules = c.modules := rfl

@[simp] theorem addGlobalModule_dynMeta (c : NestContainer) (t : Token) :
    (c.addGlobalModule t).dynamicModulesMetadata = c.dynamicModulesMetadata := rfl

@[simp] theorem addGlobalModule_globals (c : NestContainer) (t : Token) :
    (c.addGlobalModule t).globalModules =
      insertIfAbsent c.globalModules t := rfl

/-! ## The registration recursion only appends to the Registry -/

mutual

theorem addModuleCore_modules_ext : (m : ModuleRef) → ∀ (g : Nat → Bool)
    (scope : List Nat) (c : NestContainer),
    ∃ ext, (addModuleCore g m scope c).modules = c.modules ++ ext
  | .static t => by
    intro g scope c
    rw [addModuleCore]
    split
    · exact ⟨[], by simp⟩
    · next h =>
      have hm : keyMem c.modules ⟨t, scope, none⟩ = false := by
        simpa [NestContainer.hasToken] using h
      refine ⟨[(⟨t, scope, none⟩, ModuleRec.new t scope)], ?_⟩
      cases hg : g t <;> simp [hg, keySet_of_not_mem _ hm]
  | .dynamic t ms is => by
    intro g scope c
    rw [addModuleCore]
    split
    · exact ⟨[], by simp⟩
    · next h =>
      have hm : keyMem c.modules ⟨t, scope, some ⟨ms, is⟩⟩ = false := by
        simpa [NestContainer.hasToken] using h
      obtain ⟨e1, he1⟩ := addDynamicModules_modules_ext ms g (scope ++ [t])
        ((c.setModule ⟨t, scope, some ⟨ms, is⟩⟩
          (ModuleRec.new t scope)).setDynMeta ⟨t, scope, some ⟨ms, is⟩⟩ ⟨ms, is⟩)
      obtain ⟨e2, he2⟩ := addDynamicModules_modules_ext is g (scope ++ [t])
        (addDynamicModules g ms (scope ++ [t])
          ((c.setModule ⟨t, scope, some ⟨ms, is⟩⟩
            (ModuleRec.new t scope)).setDynMeta ⟨t, scope, some ⟨ms, is⟩⟩ ⟨ms, is⟩))
      refine ⟨[(⟨t, scope, some ⟨ms, is⟩⟩, ModuleRec.new t scope)] ++ e1 ++ e2, ?_⟩
      cases hg : g t <;>
        simp [hg, he2, he1, keySet_of_not_mem _ hm, List.append_assoc]
termination_by m => sizeOf m

theorem addDynamicModules_modules_ext : (ms : Option (List ModuleRef)) →
    ∀ (g : Nat → Bool) (scope : List Nat) (c : NestContainer),
    ∃ ext, (addDynamicModules g ms scope c).modules = c.modules ++ ext
  | none => by
    intro g scope c
    exact ⟨[], by rw [addDynamicModules]; simp⟩
  | some l => by
    intro g scope c
    rw [addDynamicModules]
    exact addModuleList_modules_ext l g scope c
termination_by ms => sizeOf ms

theorem addModuleList_modules_ext : (l : List ModuleRef) → ∀ (g : Nat → Bool)
    (scope : List Nat) (c : NestContainer),
    ∃ ext, (addModuleList g l scope c).modules = c.modules ++ ext
  | [] => by
    intro g scope c
    exact ⟨[], by rw [addModuleList]; simp⟩
  | m :: rest => by
    intro g scope c
    rw [addModuleList]
    obtain ⟨e1, he1⟩ := addModuleCore_modules_ext m g scope c
    obtain ⟨e2, he2⟩ := addModuleList_modules_ext rest g scope
      (addModuleCore g m scope c)
    exact ⟨e1 ++ e2, by rw [he2, he1, List.append_assoc]⟩
termination_by l => sizeOf l

end

/-! ## Tokens, presence and idempotence of registration -/

@[simp] theorem tokenOf_static (t : Nat) (scope : List Nat) :
    tokenOf (.static t) scope = ⟨t, scope, none⟩ := rfl

@[simp] theorem tokenOf_dynamic (t : Nat) (ms is : Option (List ModuleRef))
    (scope : List Nat) :
    tokenOf (.dynamic t ms is) scope = ⟨t, scope, some ⟨ms, is⟩⟩ := rfl

@[simp] theorem hasToken_eq (c : NestContainer) (t : Token) :
    c.hasToken t = keyMem c.modules t := rfl

theorem hasToken_mono_core (g : Nat → Bool) (m : ModuleRef) (scope : List Nat)
    (c : NestContainer) (t : Token) (h : c.hasToken t = true) :
    (addModuleCore g m scope c).hasToken t = true := by
  obtain ⟨ext, he⟩ := addModuleCore_modules_ext m g scope c
  simp only [hasToken_eq] at h ⊢
  rw [he, keyMem_append, h, Bool.true_or]

theorem hasToken_mono_dyn (g : Nat → Bool) (ms : Option (List ModuleRef))
    (scope : List Nat) (c : NestContainer) (t : Token) (h : c.hasToken t = true) :
    (addDynamicModules g ms scope c).hasToken t = true := by
  obtain ⟨ext, he⟩ := addDynamicModules_modules_ext ms g scope c
  simp only [hasToken_eq] at h ⊢
  rw [he, keyMem_append, h, Bool.true_or]

theorem hasToken_mono_list (g : Nat → Bool) (l : List ModuleRef)
    (scope : List Nat) (c : NestContainer) (t : Token) (h : c.hasToken t = true) :
    (addModuleList g l scope c).hasToken t = true := by
  obtain ⟨ext, he⟩ := addModuleList_modules_ext l g scope c
  simp only [hasToken_eq] at h ⊢
  rw [he, keyMem_append, h, Bool.true_or]

theorem hasToken_addModuleCore (g : Nat → Bool) (m : ModuleRef)
    (scope : List Nat) (c : NestContainer) :
    (addModuleCore g m scope c).hasToken (tokenOf m scope) = true := by
  cases m with
  | static t =>
    rw [addModuleCore]
    split
    · next h => simpa using h
    · next h =>
      cases hg : g t <;> simp [hg, keyMem_keySet_self]
  | dynamic t ms is =>
    rw [addModuleCore]
    split
    · next h => simpa using h
    · next h =>
      have h1 : ((c.setModule ⟨t, scope, some ⟨ms, is⟩⟩
          (ModuleRec.new t scope)).setDynMeta ⟨t, scope, some ⟨ms, is⟩⟩
            ⟨ms, is⟩).hasToken ⟨t, scope, some ⟨ms, is⟩⟩ = true := by
        simp [keyMem_keySet_self]
      have h2 := hasToken_mono_dyn g ms (scope ++ [t]) _ _ h1
      have h3 := hasToken_mono_dyn g is (scope ++ [t]) _ _ h2
      cases hg : g t <;> simpa [hg] using h3

theorem addModuleCore_of_hasToken (g : Nat → Bool) (m : ModuleRef)
    (scope : List Nat) (c : NestContainer)
    (h : c.hasToken (tokenOf m scope) = true) : addModuleCore g m scope c = c := by
  cases m with
  | static t =>
    simp only [tokenOf_static, hasToken_eq] at h
    rw [addModuleCore]
    simp [h]
  | dynamic t ms is =>
    simp only [tokenOf_dynamic, hasToken_eq] at h
    rw [addModuleCore]
    simp [h]

/-! ## Registration preserves key uniqueness -/

mutual

theorem uniqueKeys_addModuleCore : (m : ModuleRef) → ∀ (g : Nat → Bool)
    (scope : List Nat) (c : NestContainer),
    c.uniqueKeys → (addModuleCore g m scope c).uniqueKeys
  | .static t => by
    intro g scope c hu
    rw [addModuleCore]
    split
    · exact hu
    · next h =>
      have hm : keyMem c.modules ⟨t, scope, none⟩ = false := by simpa using h
      have hnm : (⟨t, scope, none⟩ : Token) ∉ c.modules.map Prod.fst := by
        rw [← keyMem_iff, hm]; simp
      cases hg : g t <;>
        · simp only [NestContainer.uniqueKeys] at hu ⊢
          simp [hg, keys_keySet_of_not_mem _ hm, List.nodup_append, hu, hnm]
  | .dynamic t ms is => by
    intro g scope c hu
    rw [addModuleCore]
    split
    · exact hu
    · next h =>
      have hm : keyMem c.modules ⟨t, scope, some ⟨ms, is⟩⟩ = false := by
        simpa using h
      have hnm : (⟨t, scope, some ⟨ms, is⟩⟩ : Token) ∉ c.modules.map Prod.fst := by
        rw [← keyMem_iff, hm]; simp
      have hu2 : ((c.setModule ⟨t, scope, some ⟨ms, is⟩⟩
          (ModuleRec.new t scope)).setDynMeta ⟨t, scope, some ⟨ms, is⟩⟩
            ⟨ms, is⟩).uniqueKeys := by
        simp only [NestContainer.uniqueKeys] at hu ⊢
        simp [keys_keySet_of_not_mem _ hm, List.nodup_append, hu, hnm]
      have hu3 := uniqueKeys_addDynamicModules ms g (scope ++ [t]) _ hu2
      have hu4 := uniqueKeys_addDynamicModules is g (scope ++ [t]) _ hu3
      cases hg : g t <;>
        · simp only [NestContainer.uniqueKeys] at hu4 ⊢
          simpa [hg] using hu4
termination_by m => sizeOf m

theorem uniqueKeys_addDynamicModules : (ms : Option (List ModuleRef)) →
    ∀ (g : Nat → Bool) (scope : List Nat) (c : NestContainer),
    c.uniqueKeys → (addDynamicModules g ms scope c).uniqueKeys
  | none => by
    intro g scope c hu
    rw [addDynamicModules]
    exact hu
  | some l => by
    intro g scope c hu
    rw [addDynamicModules]
    exact uniqueKeys_addModuleList l g scope c hu
termination_by ms => sizeOf ms

theorem uniqueKeys_addModuleList : (l : List ModuleRef) → ∀ (g : Nat → Bool)
    (scope : List Nat) (c : NestContainer),
    c.uniqueKeys → (addModuleList g l scope c).uniqueKeys
  | [] => by
    intro g scope c hu
    rw [addModuleList]
    exact hu
  | m :: rest => by
    intro g scope c hu
    rw [addModuleList]
    exact uniqueKeys_addModuleList rest g scope _
      (uniqueKeys_addModuleCore m g scope c hu)
termination_by l => sizeOf l

end

/-! ## Registration at a deep scope leaves shallow dynamic metadata alone -/

mutual

theorem dynLower_addModuleCore : (m : ModuleRef) → ∀ (g : Nat → Bool)
    (scope : List Nat) (c : NestContainer) (tok : Token),
    tok.scope.length < scope.length →
    keyGet (addModuleCore g m scope c).dynamicModulesMetadata tok =
      keyGet c.dynamicModulesMetadata tok
  | .static t => by
    intro g scope c tok hlen
    rw [addModuleCore]
    split
    · rfl
    · cases hg : g t <;> simp [hg]
  | .dynamic t ms is => by
    intro g scope c tok hlen
    rw [addModuleCore]
    split
    · rfl
    · next h =>
      have hne : tok ≠ (⟨t, scope, some ⟨ms, is⟩⟩ : Token) := by
        intro hc
        rw [hc] at hlen
        simp at hlen
      have hlen' : tok.scope.length < (scope ++ [t]).length := by
        simp
        omega
      have e2 := dynLower_addDynamicModules ms g (scope ++ [t])
        ((c.setModule ⟨t, scope, some ⟨ms, is⟩⟩
          (ModuleRec.new t scope)).setDynMeta ⟨t, scope, some ⟨ms, is⟩⟩ ⟨ms, is⟩)
        tok hlen'
      have e3 := dynLower_addDynamicModules is g (scope ++ [t])
        (addDynamicModules g ms (scope ++ [t])
          ((c.setModule ⟨t, scope, some ⟨ms, is⟩⟩
            (ModuleRec.new t scope)).setDynMeta ⟨t, scope, some ⟨ms, is⟩⟩
              ⟨ms, is⟩))
        tok hlen'
      cases hg : g t <;>
        simp [hg, e3, e2, keyGet_keySet_other _ _ hne]
termination_by m => sizeOf m

theorem dynLower_addDynamicModules : (ms : Option (List ModuleRef)) →
    ∀ (g : Nat → Bool) (scope : List Nat) (c : NestContainer) (tok : Token),
    tok.scope.length < scope.length →
    keyGet (addDynamicModules g ms scope c).dynamicModulesMetadata tok =
      keyGet c.dynamicModulesMetadata tok
  | none => by
    intro g scope c tok hlen
    rw [addDynamicModules]
  | some l => by
    intro g scope c tok hlen
    rw [addDynamicModules]
    exact dynLower_addModuleList l g scope c tok hlen
termination_by ms => sizeOf ms

theorem dynLower_addModuleList : (l : List ModuleRef) → ∀ (g : Nat → Bool)
    (scope : List Nat) (c : NestContainer) (tok : Token),
    tok.scope.length < scope.length →
    keyGet (addModuleList g l scope c).dynamicModulesMetadata tok =
      keyGet c.dynamicModulesMetadata tok
  | [] => by
    intro g scope c tok hlen
    rw [addModuleList]
  | m :: rest => by
    intro g scope c tok hlen
    rw [addModuleList]
    rw [dynLower_addModuleList rest g scope _ tok hlen,
      dynLower_addModuleCore m g scope c tok hlen]
termination_by l => sizeOf l

end

/-! ## Every listed module ends up registered -/

theorem addModuleList_registers (g : Nat → Bool) (l : List ModuleRef)
    (scope : List Nat) :
    ∀ (c : NestContainer), ∀ r ∈ l,
      (addModuleList g l scope c).hasToken (tokenOf r scope) = true := by
  induction l with
  | nil => simp
  | cons m rest ih =>
    intro c r hr
    rw [addModuleList]
    rcases List.mem_cons.mp hr with hrm | hr'
    · rw [hrm]
      exact hasToken_mono_list g rest scope _ _
        (hasToken_addModuleCore g m scope c)
    · exact ih _ r hr'

/-! ## Records match their tokens, and never relate to themselves -/

theorem keyGet_some_mem {α : Type} {l : List (Token × α)} {k : Token} {v : α}
    (h : keyGet l k = some v) : (k, v) ∈ l := by
  unfold keyGet at h
  obtain ⟨p, hp, hv⟩ := Option.map_eq_some'.mp h
  have hmem := List.mem_of_find?_eq_some hp
  have hk := List.find?_some hp
  have hk' : p.1 = k := by simpa using hk
  have : p = (k, v) := by
    cases p
    simp_all
  rw [← this]
  exact hmem

theorem keyMem_of_keyGet_some {α : Type} {l : List (Token × α)} {k : Token}
    {v : α} (h : keyGet l k = some v) : keyMem l k = true := by
  cases hb : keyMem l k with
  | true => rfl
  | false => rw [(keyGet_eq_none l k).mpr hb] at h; exact Option.noConfusion h

theorem keySet_eq_replace {α : Type} {l : List (Token × α)} {k : Token} (v : α)
    (h : keyMem l k = true) :
    keySet l k v = l.map fun p => if p.1 = k then (k, v) else p := by
  simp [keySet, h]

theorem mem_keySet_elim {α : Type} {l : List (Token × α)} {k : Token} {v : α}
    {p : Token × α} (hk : keyMem l k = true) (hp : p ∈ keySet l k v) :
    p ∈ l ∨ p = (k, v) := by
  rw [keySet_eq_replace v hk] at hp
  obtain ⟨q, hq, he⟩ := List.mem_map.mp hp
  by_cases hqk : q.1 = k
  · right
    rw [← he]
    simp [hqk]
  · left
    rw [← he]
    simpa [hqk] using hq

theorem coherent_keySet {l : List (Token × ModuleRec)} {k : Token}
    {m v : ModuleRec} {p : Token × ModuleRec} (hg : keyGet l k = some m)
    (hcoh : ∀ q ∈ l, q.2.metatype = q.1.type ∧ q.2.scope = q.1.scope)
    (hp : p ∈ keySet l k v)
    (hv1 : v.metatype = m.metatype) (hv2 : v.scope = m.scope) :
    p.2.metatype = p.1.type ∧ p.2.scope = p.1.scope := by
  rcases mem_keySet_elim (keyMem_of_keyGet_some hg) hp with hold | hnew
  · exact hcoh p hold
  · obtain ⟨hm1, hm2⟩ := hcoh (k, m) (keyGet_some_mem hg)
    rw [hnew]
    exact ⟨by rw [hv1]; exact hm1, by rw [hv2]; exact hm2⟩

theorem selfFree_keySet {l : List (Token × ModuleRec)} {k : Token}
    {m v : ModuleRec} {p : Token × ModuleRec} (hg : keyGet l k = some m)
    (hsf : ∀ q ∈ l, q.1 ∉ q.2.relatedModules)
    (hp : p ∈ keySet l k v)
    (hv : k ∉ v.relatedModules) :
    p.1 ∉ p.2.relatedModules := by
  rcases mem_keySet_elim (keyMem_of_keyGet_some hg) hp with hold | hnew
  · exact hsf p hold
  · rw [hnew]
    exact hv

mutual

theorem coherent_addModuleCore : (m : ModuleRef) → ∀ (g : Nat → Bool)
    (scope : List Nat) (c : NestContainer),
    c.coherent → (addModuleCore g m scope c).coherent
  | .static t => by
    intro g scope c hc
    rw [addModuleCore]
    split
    · exact hc
    · next h =>
      have hm : keyMem c.modules ⟨t, scope, none⟩ = false := by simpa using h
      cases hg : g t <;>
        · intro p hp
          simp only [NestContainer.coherent] at hc
          simp only [hg, Bool.false_eq_true, if_false, if_true,
            addGlobalModule_modules, setModule_modules] at hp
          rw [keySet_of_not_mem _ hm] at hp
          rcases List.mem_append.mp hp with h1 | h2
          · exact hc p h1
          · simp only [List.mem_singleton] at h2
            rw [h2]
            exact ⟨rfl, rfl⟩
  | .dynamic t ms is => by
    intro g scope c hc
    rw [addModuleCore]
    split
    · exact hc
    · next h =>
      have hm : keyMem c.modules ⟨t, scope, some ⟨ms, is⟩⟩ = false := by
        simpa using h
      have hc2 : ((c.setModule ⟨t, scope, some ⟨ms, is⟩⟩
          (ModuleRec.new t scope)).setDynMeta ⟨t, scope, some ⟨ms, is⟩⟩
            ⟨ms, is⟩).coherent := by
        intro p hp
        simp only [NestContainer.coherent] at hc
        simp only [setDynMeta_modules, setModule_modules] at hp
        rw [keySet_of_not_mem _ hm] at hp
        rcases List.mem_append.mp hp with h1 | h2
        · exact hc p h1
        · simp only [List.mem_singleton] at h2
          rw [h2]
          exact ⟨rfl, rfl⟩
      have hc3 := coherent_addDynamicModules ms g (scope ++ [t]) _ hc2
      have hc4 := coherent_addDynamicModules is g (scope ++ [t]) _ hc3
      cases hg : g t
      · simpa [hg] using hc4
      · intro p hp
        simp only [hg, if_true, addGlobalModule_modules] at hp
        exact hc4 p hp
termination_by m => sizeOf m

theorem coherent_addDynamicModules : (ms : Option (List ModuleRef)) →
    ∀ (g : Nat → Bool) (scope : List Nat) (c : NestContainer),
    c.coherent → (addDynamicModules g ms scope c).coherent
  | none => by
    intro g scope c hc
    rw [addDynamicModules]
    exact hc
  | some l => by
    intro g scope c hc
    rw [addDynamicModules]
    exact coherent_addModuleList l g scope c hc
termination_by ms => sizeOf ms

theorem coherent_addModuleList : (l : List ModuleRef) → ∀ (g : Nat → Bool)
    (scope : List Nat) (c : NestContainer),
    c.coherent → (addModuleList g l scope c).coherent
  | [] => by
    intro g scope c hc
    rw [addModuleList]
    exact hc
  | m :: rest => by
    intro g scope c hc
    rw [addModuleList]
    exact coherent_addModuleList rest g scope _
      (coherent_addModuleCore m g scope c hc)
termination_by l => sizeOf l

end

mutual

theorem selfFree_addModuleCore : (m : ModuleRef) → ∀ (g : Nat → Bool)
    (scope : List Nat) (c : NestContainer),
    c.selfFree → (addModuleCore g m scope c).selfFree
  | .static t => by
    intro g scope c hs
    rw [addModuleCore]
    split
    · exact hs
    · next h =>
      have hm : keyMem c.modules ⟨t, scope, none⟩ = false := by simpa using h
      cases hg : g t <;>
        · intro p hp
          simp only [NestContainer.selfFree] at hs
          simp only [hg, Bool.false_eq_true, if_false, if_true,
            addGlobalModule_modules, setModule_modules] at hp
          rw [keySet_of_not_mem _ hm] at hp
          rcases List.mem_append.mp hp with h1 | h2
          · exact hs p h1
          · simp only [List.mem_singleton] at h2
            rw [h2]
            simp [ModuleRec.new]
  | .dynamic t ms is => by
    intro g scope c hs
    rw [addModuleCore]
    split
    · exact hs
    · next h =>
      have hm : keyMem c.modules ⟨t, scope, some ⟨ms, is⟩⟩ = false := by
        simpa using h
      have hs2 : ((c.setModule ⟨t, scope, some ⟨ms, is⟩⟩
          (ModuleRec.new t scope)).setDynMeta ⟨t, scope, some ⟨ms, is⟩⟩
            ⟨ms, is⟩).selfFree := by
        intro p hp
        simp only [NestContainer.selfFree] at hs
        simp only [setDynMeta_modules, setModule_modules] at hp
        rw [keySet_of_not_mem _ hm] at hp
        rcases List.mem_append.mp hp with h1 | h2
        · exact hs p h1
        · simp only [List.mem_singleton] at h2
          rw [h2]
          simp [ModuleRec.new]
      have hs3 := selfFree_addDynamicModules ms g (scope ++ [t]) _ hs2
      have hs4 := selfFree_addDynamicModules is g (scope ++ [t]) _ hs3
      cases hg : g t
      · simpa [hg] using hs4
      · intro p hp
        simp only [hg, if_true, addGlobalModule_modules] at hp
        exact hs4 p hp
termination_by m => sizeOf m

theorem selfFree_addDynamicModules : (ms : Option (List ModuleRef)) →
    ∀ (g : Nat → Bool) (scope : List Nat) (c : NestContainer),
    c.selfFree → (addDynamicModules g ms scope c).selfFree
  | none => by
    intro g scope c hs
    rw [addDynamicModules]
    exact hs
  | some l => by
    intro g scope c hs
    rw [addDynamicModules]
    exact selfFree_addModuleList l g scope c hs
termination_by ms => sizeOf ms

theorem selfFree_addModuleList : (l : List ModuleRef) → ∀ (g : Nat → Bool)
    (scope : List Nat) (c : NestContainer),
    c.selfFree → (addModuleList g l scope c).selfFree
  | [] => by
    intro g scope c hs
    rw [addModuleList]
    exact hs
  | m :: rest => by
    intro g scope c hs
    rw [addModuleList]
    exact selfFree_addModuleList rest g scope _
      (selfFree_addModuleCore m g scope c hs)
termination_by l => sizeOf l

end

/-! ## Record operations and global binding preserve identity fields -/

theorem addRelatedModule_metatype (m : ModuleRec) (o : Option Token) :
    (m.addRelatedModule o).metatype = m.metatype := by
  cases o <;> rfl

theorem addRelatedModule_scope (m : ModuleRec) (o : Option Token) :
    (m.addRelatedModule o).scope = m.scope := by
  cases o <;> rfl

theorem addRelatedModule_not_self (m : ModuleRec) (o : Option Token) (k : Token)
    (hk : k ∉ m.relatedModules) (ho : ∀ t, o = some t → t ≠ k) :
    k ∉ (m.addRelatedModule o).relatedModules := by
  cases o with
  | none => exact hk
  | some t =>
    simp only [ModuleRec.addRelatedModule]
    rw [mem_insertIfAbsent]
    rintro (hmem | rfl)
    · exact hk hmem
    · exact ho k rfl rfl

theorem mem_addRelatedModule_some (m : ModuleRec) (t : Token) :
    t ∈ (m.addRelatedModule (some t)).relatedModules := by
  simp only [ModuleRec.addRelatedModule]
  rw [mem_insertIfAbsent]
  right
  rfl

theorem mem_addRelatedModule_mono (m : ModuleRec) (o : Option Token) (x : Token)
    (h : x ∈ m.relatedModules) : x ∈ (m.addRelatedModule o).relatedModules := by
  cases o with
  | none => exact h
  | some t =>
    simp only [ModuleRec.addRelatedModule]
    rw [mem_insertIfAbsent]
    exact Or.inl h

theorem bindGlobalModuleToModule_metatype (mtok gtok : Token) (m : ModuleRec) :
    (bindGlobalModuleToModule mtok gtok m).metatype = m.metatype := by
  unfold bindGlobalModuleToModule
  split
  · rfl
  · exact addRelatedModule_metatype m _

theorem bindGlobalModuleToModule_scope (mtok gtok : Token) (m : ModuleRec) :
    (bindGlobalModuleToModule mtok gtok m).scope = m.scope := by
  unfold bindGlobalModuleToModule
  split
  · rfl
  · exact addRelatedModule_scope m _

theorem bindGlobals_metatype (gs : List Token) (mtok : Token) (m : ModuleRec) :
    (bindGlobalsToRelatedModules gs mtok m).metatype = m.metatype := by
  induction gs generalizing m with
  | nil => rfl
  | cons gt gs ih =>
    unfold bindGlobalsToRelatedModules at ih ⊢
    rw [List.foldl_cons, ih, bindGlobalModuleToModule_metatype]

theorem bindGlobals_scope (gs : List Token) (mtok : Token) (m : ModuleRec) :
    (bindGlobalsToRelatedModules gs mtok m).scope = m.scope := by
  induction gs generalizing m with
  | nil => rfl
  | cons gt gs ih =>
    unfold bindGlobalsToRelatedModules at ih ⊢
    rw [List.foldl_cons, ih, bindGlobalModuleToModule_scope]

theorem bindGlobals_not_self (gs : List Token) (mtok : Token) (m : ModuleRec)
    (h : mtok ∉ m.relatedModules) :
    mtok ∉ (bindGlobalsToRelatedModules gs mtok m).relatedModules := by
  induction gs generalizing m with
  | nil => exact h
  | cons gt gs ih =>
    unfold bindGlobalsToRelatedModules at ih ⊢
    rw [List.foldl_cons]
    refine ih _ ?_
    unfold bindGlobalModuleToModule
    split
    · exact h
    · next hne =>
      exact addRelatedModule_not_self m _ _ h
        (by rintro t ht rfl; injection ht with he; exact hne he.symm)

theorem bindGlobals_mem_mono (gs : List Token) (mtok : Token) (m : ModuleRec)
    (x : Token) (h : x ∈ m.relatedModules) :
    x ∈ (bindGlobalsToRelatedModules gs mtok m).relatedModules := by
  induction gs generalizing m with
  | nil => exact h
  | cons gt gs ih =>
    unfold bindGlobalsToRelatedModules at ih ⊢
    rw [List.foldl_cons]
    refine ih _ ?_
    unfold bindGlobalModuleToModule
    split
    · exact h
    · exact mem_addRelatedModule_mono m _ x h

theorem bindGlobals_mem_global (gs : List Token) (mtok : Token) (m : ModuleRec)
    (gt : Token) (hmem : gt ∈ gs) (hne : gt ≠ mtok) :
    gt ∈ (bindGlobalsToRelatedModules gs mtok m).relatedModules := by
  induction gs generalizing m with
  | nil => simp at hmem
  | cons g0 gs ih =>
    unfold bindGlobalsToRelatedModules at ih ⊢
    rw [List.foldl_cons]
    rcases List.mem_cons.mp hmem with hg0 | htail
    · rw [hg0]
      apply bindGlobals_mem_mono
      unfold bindGlobalModuleToModule
      rw [← hg0]
      split
      · next he => exact absurd he.symm hne
      · rw [hg0]
        exact mem_addRelatedModule_some m g0
    · exact ih _ htail

/-! ## Invariant preservation by the remaining operations -/

theorem replace_eq (c : NestContainer) (x : Nat) : c.replace x = c := by
  unfold NestContainer.replace ModuleRec.replace
  cases c
  simp

theorem inv_addRelatedModule (c : NestContainer) (r : ModuleRef) (t : Token)
    (h : c.coherent ∧ c.selfFree) :
    (c.addRelatedModule r t).coherent ∧ (c.addRelatedModule r t).selfFree := by
  unfold NestContainer.addRelatedModule
  cases hg : keyGet c.modules t with
  | none => exact h
  | some module =>
    have hmem := keyGet_some_mem hg
    have hco := h.1 (t, module) hmem
    have hsf := h.2 (t, module) hmem
    constructor
    · intro p hp
      exact coherent_keySet hg h.1 hp (addRelatedModule_metatype _ _)
        (addRelatedModule_scope _ _)
    · intro p hp
      refine selfFree_keySet hg h.2 hp ?_
      refine addRelatedModule_not_self _ _ _ hsf ?_
      intro rt hrt
      split at hrt
      · injection hrt with he
        intro hc
        rw [← he] at hc
        have : (module.scope ++ [module.metatype]).length = t.scope.length := by
          rw [← hc]
        rw [hco.2] at this
        simp at this
      · exact Option.noConfusion hrt

theorem inv_addComponent (c : NestContainer) (x : Nat) (t : Token)
    (h : c.coherent ∧ c.selfFree) :
    (c.addComponent x t).1.coherent ∧ (c.addComponent x t).1.selfFree := by
  unfold NestContainer.addComponent
  cases hg : keyGet c.modules t with
  | none => exact h
  | some m =>
    constructor
    · intro p hp
      exact coherent_keySet hg h.1 hp rfl rfl
    · intro p hp
      refine selfFree_keySet hg h.2 hp ?_
      have := h.2 (t, m) (keyGet_some_mem hg)
      simpa [ModuleRec.addComponent] using this

theorem inv_addInjectable (c : NestContainer) (x : Nat) (t : Token)
    (h : c.coherent ∧ c.selfFree) :
    (c.addInjectable x t).1.coherent ∧ (c.addInjectable x t).1.selfFree := by
  unfold NestContainer.addInjectable
  cases hg : keyGet c.modules t with
  | none => exact h
  | some m =>
    constructor
    · intro p hp
      exact coherent_keySet hg h.1 hp rfl rfl
    · intro p hp
      refine selfFree_keySet hg h.2 hp ?_
      have := h.2 (t, m) (keyGet_some_mem hg)
      simpa [ModuleRec.addInjectable] using this

theorem inv_addExportedComponent (c : NestContainer) (x : Nat) (t : Token)
    (h : c.coherent ∧ c.selfFree) :
    (c.addExportedComponent x t).1.coherent ∧
      (c.addExportedComponent x t).1.selfFree := by
  unfold NestContainer.addExportedComponent
  cases hg : keyGet c.modules t with
  | none => exact h
  | some m =>
    constructor
    · intro p hp
      exact coherent_keySet hg h.1 hp rfl rfl
    · intro p hp
      refine selfFree_keySet hg h.2 hp ?_
      have := h.2 (t, m) (keyGet_some_mem hg)
      simpa [ModuleRec.addExportedComponent] using this

theorem inv_addController (c : NestContainer) (x : Nat) (t : Token)
    (h : c.coherent ∧ c.selfFree) :
    (c.addController x t).1.coherent ∧ (c.addController x t).1.selfFree := by
  unfold NestContainer.addController
  cases hg : keyGet c.modules t with
  | none => exact h
  | some m =>
    constructor
    · intro p hp
      exact coherent_keySet hg h.1 hp rfl rfl
    · intro p hp
      refine selfFree_keySet hg h.2 hp ?_
      have := h.2 (t, m) (keyGet_some_mem hg)
      simpa [ModuleRec.addRoute] using this

theorem inv_bindGlobalScope (c : NestContainer)
    (h : c.coherent ∧ c.selfFree) :
    c.bindGlobalScope.coherent ∧ c.bindGlobalScope.selfFree := by
  unfold NestContainer.bindGlobalScope
  constructor
  · intro p hp
    obtain ⟨q, hq, he⟩ := List.mem_map.mp hp
    rw [← he]
    obtain ⟨h1, h2⟩ := h.1 q hq
    exact ⟨by rw [bindGlobals_metatype]; exact h1,
      by rw [bindGlobals_scope]; exact h2⟩
  · intro p hp
    obtain ⟨q, hq, he⟩ := List.mem_map.mp hp
    rw [← he]
    exact bindGlobals_not_self _ _ _ (h.2 q hq)

theorem reachable_inv (c : NestContainer) (h : Reachable c) :
    c.coherent ∧ c.selfFree := by
  induction h with
  | empty =>
    constructor
    · intro p hp
      simp [NestContainer.empty] at hp
    · intro p hp
      simp [NestContainer.empty] at hp
  | addModule g m scope hr ih =>
    cases m with
    | none => simpa [NestContainer.addModule] using ih
    | some r =>
      simp only [NestContainer.addModule]
      exact ⟨coherent_addModuleCore r g scope _ ih.1,
        selfFree_addModuleCore r g scope _ ih.2⟩
  | addRelatedModule r t hr ih => exact inv_addRelatedModule _ r t ih
  | addComponent x t hr ih => exact inv_addComponent _ x t ih
  | addInjectable x t hr ih => exact inv_addInjectable _ x t ih
  | addExportedComponent x t hr ih => exact inv_addExportedComponent _ x t ih
  | addController x t hr ih => exact inv_addController _ x t ih
  | bindGlobalScope hr ih => exact inv_bindGlobalScope _ ih
  | replace x hr ih => simpa [replace_eq] using ih
  | clear hr ih =>
    constructor
    · intro p hp
      simp [NestContainer.clear] at hp
    · intro p hp
      simp [NestContainer.clear] at hp

/-! ## Writing back the value already stored is a no-op -/

theorem replace_eq_of_not_mem {α : Type} {l : List (Token × α)} {k : Token}
    (v : α) (h : keyMem l k = false) :
    (l.map fun p => if p.1 = k then (k, v) else p) = l := by
  induction l with
  | nil => rfl
  | cons p l ih =>
    by_cases hp : p.1 = k
    · simp [keyMem, hp] at h
    · have h' : keyMem l k = false := by
        simpa [keyMem, hp] using h
      simp [hp, ih h']

theorem keySet_get_self {α : Type} {l : List (Token × α)} {k : Token} {m : α}
    (hg : keyGet l k = some m) (hnd : (l.map Prod.fst).Nodup) :
    keySet l k m = l := by
  rw [keySet_eq_replace m (keyMem_of_keyGet_some hg)]
  induction l with
  | nil => simp [keyGet] at hg
  | cons p l ih =>
    by_cases hp : p.1 = k
    · have hm : m = p.2 := by
        rw [keyGet, List.find?_cons_of_pos _ (by simpa using hp)] at hg
        simpa using hg.symm
      have hnd1 : p.1 ∉ l.map Prod.fst ∧ (l.map Prod.fst).Nodup :=
        List.nodup_cons.mp (by rw [List.map_cons] at hnd; exact hnd)
      have hk : keyMem l k = false := by
        have hnotin := hnd1.1
        cases hb : keyMem l k with
        | false => rfl
        | true =>
          rw [keyMem_iff] at hb
          rw [hp] at hnotin
          exact absurd hb hnotin
      have hpe : (k, m) = p := by
        rw [hm, ← hp]
      simp only [List.map_cons, if_pos hp]
      rw [replace_eq_of_not_mem _ hk, hpe]
    · have hg' : keyGet l k = some m := by
        rw [keyGet, List.find?_cons_of_neg _ (by simpa using hp)] at hg
        exact hg
      have hnd' : (l.map Prod.fst).Nodup :=
        (List.nodup_cons.mp (by rw [List.map_cons] at hnd; exact hnd)).2
      simp only [List.map_cons, if_neg hp]
      rw [ih hg' hnd']

/-! ## Claims -/

/-- C1: Registration is idempotent. Registering a module reference and then
registering it again with the same (type, scope, dynamic-config) triple — the
same computed token — leaves the Registry with exactly one Module Record for
that token, and the second call returns the container completely unchanged
(Registry, Dynamic Metadata Store and global-module set included) with no
error. -/
theorem registration_idempotent (g : Nat → Bool) (m : ModuleRef)
    (scope : List Nat) (c : NestContainer) (hu : c.uniqueKeys) :
    ((c.addModule g (some m) scope).1.addModule g (some m) scope) =
      ((c.addModule g (some m) scope).1, none) ∧
    (((c.addModule g (some m) scope).1.modules.map Prod.fst).count
      (tokenOf m scope) = 1) := by
  simp only [NestContainer.addModule]
  constructor
  · rw [addModuleCore_of_hasToken g m scope _ (hasToken_addModuleCore g m scope c)]
  · have hnodup := uniqueKeys_addModuleCore m g scope c hu
    have hmem : tokenOf m scope ∈
        (addModuleCore g m scope c).modules.map Prod.fst := by
      rw [← keyMem_iff]
      exact hasToken_addModuleCore g m scope c
    exact List.count_eq_one_of_mem hnodup hmem

theorem registration_idempotent_witness :
    NestContainer.empty.uniqueKeys ∧
    (((NestContainer.empty.addModule (fun _ => false) (some (.static 0))
        []).1.addModule (fun _ => false) (some (.static 0)) []) =
      ((NestContainer.empty.addModule (fun _ => false) (some (.static 0))
        []).1, none) ∧
    (((NestContainer.empty.addModule (fun _ => false) (some (.static 0))
        []).1.modules.map Prod.fst).count (tokenOf (.static 0) []) = 1)) :=
  ⟨List.Pairwise.nil,
    registration_idempotent (fun _ => false) (.static 0) [] NestContainer.empty
      List.Pairwise.nil⟩

/-- C4: `addModule` fails with `InvalidModuleError` exactly when the module
reference is absent; the error carries the scope, is returned synchronously,
and the container is completely unchanged in that case; for a present
reference the call never produces this error. -/
theorem addModule_invalid_exactly_when_absent (g : Nat → Bool)
    (scope : List Nat) (c : NestContainer) :
    c.addModule g none scope = (c, some (NestError.invalidModule scope)) ∧
    ∀ m : ModuleRef, (c.addModule g (some m) scope).2 = none :=
  ⟨rfl, fun _ => rfl⟩

/-- C7: No Module Record of a container reachable by the container's
operations ever contains itself in its `relatedModules` set, even when the
module is declared global (`bindGlobalScope` skips the self-edge). -/
theorem no_self_relation (c : NestContainer) (h : Reachable c) : c.selfFree :=
  (reachable_inv c h).2

theorem no_self_relation_witness :
    (NestContainer.empty.addModule (fun _ => true) (some (.static 0))
      []).1.bindGlobalScope.selfFree :=
  no_self_relation _
    (Reachable.bindGlobalScope
      (Reachable.addModule (fun _ => true) (some (.static 0)) []
        Reachable.empty))

/-- C8: `clear()` empties the Registry and leaves the Dynamic Metadata Store
and the global-module set untouched, for every container state. -/
theorem clear_frame (c : NestContainer) :
    c.clear.modules = [] ∧
    c.clear.dynamicModulesMetadata = c.dynamicModulesMetadata ∧
    c.clear.globalModules = c.globalModules :=
  ⟨rfl, rfl, rfl⟩

/-- C2: After `bindGlobalScope()`, every Module Record of the Registry —
visited in insertion order, the key sequence being unchanged — holds every
global module other than itself in its `relatedModules`; in particular every
non-global module gains an edge to every global module. -/
theorem bindGlobalScope_fanout (c : NestContainer) :
    c.bindGlobalScope.modules.map Prod.fst = c.modules.map Prod.fst ∧
    ∀ p ∈ c.bindGlobalScope.modules, ∀ gt ∈ c.globalModules,
      gt ≠ p.1 → gt ∈ p.2.relatedModules := by
  constructor
  · unfold NestContainer.bindGlobalScope
    simp
  · intro p hp gt hg hne
    unfold NestContainer.bindGlobalScope at hp
    obtain ⟨q, hq, rfl⟩ := List.mem_map.mp hp
    exact bindGlobals_mem_global _ q.1 q.2 gt hg hne

theorem bindGlobalScope_fanout_witness :
    ((⟨1, [], none⟩ : Token), (⟨1, [], [⟨0, [], none⟩], [], [], [], []⟩ : ModuleRec)) ∈
      (NestContainer.bindGlobalScope
        ⟨[(⟨0, [], none⟩, ModuleRec.new 0 []), (⟨1, [], none⟩, ModuleRec.new 1 [])],
          [⟨0, [], none⟩], []⟩).modules ∧
    (⟨0, [], none⟩ : Token) ∈
      (⟨[(⟨0, [], none⟩, ModuleRec.new 0 []), (⟨1, [], none⟩, ModuleRec.new 1 [])],
        [⟨0, [], none⟩], []⟩ : NestContainer).globalModules ∧
    (⟨0, [], none⟩ : Token) ∈
      (⟨1, [], [⟨0, [], none⟩], [], [], [], []⟩ : ModuleRec).relatedModules :=
  ⟨by decide, by decide,
    (bindGlobalScope_fanout
      ⟨[(⟨0, [], none⟩, ModuleRec.new 0 []), (⟨1, [], none⟩, ModuleRec.new 1 [])],
        [⟨0, [], none⟩], []⟩).2
      (⟨1, [], none⟩, ⟨1, [], [⟨0, [], none⟩], [], [], [], []⟩)
      (by decide) ⟨0, [], none⟩ (by decide) (by decide)⟩

/-- C9: `getDynamicMetadataByToken(token, key)` returns the stored list when
the token has stored metadata with the field present, and `[]` both when the
token has no stored metadata and when the field is absent — the two cases
are indistinguishable to the caller. -/
theorem getDynamicMetadata_spec (c : NestContainer) (t : Token) (k : MetaKey) :
    (∀ d l, keyGet c.dynamicModulesMetadata t = some d → d.getKey k = some l →
      c.getDynamicMetadataByToken t k = l) ∧
    (keyGet c.dynamicModulesMetadata t = none →
      c.getDynamicMetadataByToken t k = []) ∧
    (∀ d, keyGet c.dynamicModulesMetadata t = some d → d.getKey k = none →
      c.getDynamicMetadataByToken t k = []) := by
  unfold NestContainer.getDynamicMetadataByToken
  refine ⟨?_, ?_, ?_⟩
  · intro d l hd hk
    rw [hd]
    simp [hk]
  · intro hd
    rw [hd]
  · intro d hd hk
    rw [hd]
    simp [hk]

theorem getDynamicMetadata_spec_witness :
    (keyGet (⟨[], [], [(⟨0, [], some ⟨some [], none⟩⟩, ⟨some [.static 3], none⟩)]⟩ :
        NestContainer).dynamicModulesMetadata ⟨0, [], some ⟨some [], none⟩⟩ =
      some ⟨some [.static 3], none⟩) ∧
    (DynMeta.getKey ⟨some [.static 3], none⟩ MetaKey.modulesKey = some [.static 3]) ∧
    ((⟨[], [], [(⟨0, [], some ⟨some [], none⟩⟩, ⟨some [.static 3], none⟩)]⟩ :
        NestContainer).getDynamicMetadataByToken ⟨0, [], some ⟨some [], none⟩⟩
        MetaKey.modulesKey = [.static 3]) ∧
    (keyGet (⟨[], [], [(⟨0, [], some ⟨some [], none⟩⟩, ⟨some [.static 3], none⟩)]⟩ :
        NestContainer).dynamicModulesMetadata ⟨1, [], none⟩ = none) ∧
    ((⟨[], [], [(⟨0, [], some ⟨some [], none⟩⟩, ⟨some [.static 3], none⟩)]⟩ :
        NestContainer).getDynamicMetadataByToken ⟨1, [], none⟩
        MetaKey.modulesKey = []) ∧
    (DynMeta.getKey ⟨some [.static 3], none⟩ MetaKey.importsKey = none) ∧
    ((⟨[], [], [(⟨0, [], some ⟨some [], none⟩⟩, ⟨some [.static 3], none⟩)]⟩ :
        NestContainer).getDynamicMetadataByToken ⟨0, [], some ⟨some [], none⟩⟩
        MetaKey.importsKey = []) := by
  refine ⟨rfl, rfl, ?_, rfl, ?_, rfl, ?_⟩
  · exact (getDynamicMetadata_spec _ _ _).1 ⟨some [.static 3], none⟩ [.static 3]
      rfl rfl
  · exact (getDynamicMetadata_spec _ _ _).2.1 rfl
  · exact (getDynamicMetadata_spec _ _ _).2.2 ⟨some [.static 3], none⟩ rfl rfl

/-- C10: During `addModule` of a dynamic module whose token is new, the
module's own Record is appended to the Registry before any module of its
dynamic configuration is registered: the resulting Registry is the old one,
then the parent entry, then everything first registered by the nested
recursion — so in insertion-order iteration the parent precedes its nested
modules, and re-encountering an already-registered token inside the
recursion is stopped by the has-token check (`addModuleCore_of_hasToken`)
instead of recursing again. -/
theorem parent_registered_before_children (g : Nat → Bool) (t : Nat)
    (ms is : Option (List ModuleRef)) (scope : List Nat) (c : NestContainer)
    (h : c.hasToken (tokenOf (.dynamic t ms is) scope) = false) :
    ∃ rest, ((c.addModule g (some (.dynamic t ms is)) scope).1).modules =
      c.modules ++
        (tokenOf (.dynamic t ms is) scope, ModuleRec.new t scope) :: rest := by
  simp only [NestContainer.addModule]
  rw [addModuleCore]
  simp only [tokenOf_dynamic] at h ⊢
  split
  · next hcond =>
    rw [h] at hcond
    exact Bool.noConfusion hcond
  · obtain ⟨e1, he1⟩ := addDynamicModules_modules_ext ms g (scope ++ [t])
      ((c.setModule ⟨t, scope, some ⟨ms, is⟩⟩
        (ModuleRec.new t scope)).setDynMeta ⟨t, scope, some ⟨ms, is⟩⟩ ⟨ms, is⟩)
    obtain ⟨e2, he2⟩ := addDynamicModules_modules_ext is g (scope ++ [t])
      (addDynamicModules g ms (scope ++ [t])
        ((c.setModule ⟨t, scope, some ⟨ms, is⟩⟩
          (ModuleRec.new t scope)).setDynMeta ⟨t, scope, some ⟨ms, is⟩⟩
            ⟨ms, is⟩))
    refine ⟨e1 ++ e2, ?_⟩
    have hm : keyMem c.modules ⟨t, scope, some ⟨ms, is⟩⟩ = false := by
      simpa using h
    cases hg : g t <;>
      simp [hg, he2, he1, keySet_of_not_mem _ hm]

theorem parent_registered_before_children_witness :
    NestContainer.empty.hasToken
      (tokenOf (.dynamic 0 (some [.static 1]) none) []) = false ∧
    ∃ rest, ((NestContainer.empty.addModule (fun _ => false)
        (some (.dynamic 0 (some [.static 1]) none)) []).1).modules =
      NestContainer.empty.modules ++
        (tokenOf (.dynamic 0 (some [.static 1]) none) [],
          ModuleRec.new 0 []) :: rest :=
  ⟨rfl, parent_registered_before_children (fun _ => false) 0
    (some [.static 1]) none [] NestContainer.empty rfl⟩

/-- C3: Registering a dynamic module (a descriptor with a dynamic
configuration) whose token is new stores the configuration in the Dynamic
Metadata Store under the module's token, and afterwards every module listed
in the configuration's `modules` field and every module listed in its
`imports` field is present in the Registry at the original scope extended by
the dynamic module's own type — one level deeper than the dynamic module. -/
theorem dynamic_registration_nested (g : Nat → Bool) (t : Nat)
    (ms is : Option (List ModuleRef)) (scope : List Nat) (c : NestContainer)
    (h : c.hasToken (tokenOf (.dynamic t ms is) scope) = false) :
    keyGet ((c.addModule g (some (.dynamic t ms is))
        scope).1).dynamicModulesMetadata
      (tokenOf (.dynamic t ms is) scope) = some ⟨ms, is⟩ ∧
    (∀ l, ms = some l → ∀ r ∈ l,
      ((c.addModule g (some (.dynamic t ms is)) scope).1).hasToken
        (tokenOf r (scope ++ [t])) = true) ∧
    (∀ l, is = some l → ∀ r ∈ l,
      ((c.addModule g (some (.dynamic t ms is)) scope).1).hasToken
        (tokenOf r (scope ++ [t])) = true) := by
  simp only [NestContainer.addModule]
  rw [addModuleCore]
  simp only [tokenOf_dynamic] at h ⊢
  split
  · next hcond =>
    rw [h] at hcond
    exact Bool.noConfusion hcond
  · have hlen : (⟨t, scope, some ⟨ms, is⟩⟩ : Token).scope.length <
        (scope ++ [t]).length := by
      simp
    refine ⟨?_, ?_, ?_⟩
    · have e3 := dynLower_addDynamicModules is g (scope ++ [t])
        (addDynamicModules g ms (scope ++ [t])
          ((c.setModule ⟨t, scope, some ⟨ms, is⟩⟩
            (ModuleRec.new t scope)).setDynMeta ⟨t, scope, some ⟨ms, is⟩⟩
              ⟨ms, is⟩))
        ⟨t, scope, some ⟨ms, is⟩⟩ hlen
      have e2 := dynLower_addDynamicModules ms g (scope ++ [t])
        ((c.setModule ⟨t, scope, some ⟨ms, is⟩⟩
          (ModuleRec.new t scope)).setDynMeta ⟨t, scope, some ⟨ms, is⟩⟩
            ⟨ms, is⟩)
        ⟨t, scope, some ⟨ms, is⟩⟩ hlen
      cases hg : g t <;>
        simp [hg, e3, e2, keyGet_keySet_self]
    · intro l hl r hr
      subst hl
      have h2 : (addDynamicModules g (some l) (scope ++ [t])
          ((c.setModule ⟨t, scope, some ⟨some l, is⟩⟩
            (ModuleRec.new t scope)).setDynMeta ⟨t, scope, some ⟨some l, is⟩⟩
              ⟨some l, is⟩)).hasToken (tokenOf r (scope ++ [t])) = true := by
        rw [addDynamicModules]
        exact addModuleList_registers g l (scope ++ [t]) _ r hr
      have h3 := hasToken_mono_dyn g is (scope ++ [t]) _ _ h2
      cases hg : g t <;> simpa [hg] using h3
    · intro l hl r hr
      subst hl
      have h3 : (addDynamicModules g (some l) (scope ++ [t])
          (addDynamicModules g ms (scope ++ [t])
            ((c.setModule ⟨t, scope, some ⟨ms, some l⟩⟩
              (ModuleRec.new t scope)).setDynMeta ⟨t, scope, some ⟨ms, some l⟩⟩
                ⟨ms, some l⟩))).hasToken (tokenOf r (scope ++ [t])) = true := by
        rw [addDynamicModules]
        exact addModuleList_registers g l (scope ++ [t]) _ r hr
      cases hg : g t <;> simpa [hg] using h3

theorem dynamic_registration_nested_witness :
    NestContainer.empty.hasToken
      (tokenOf (.dynamic 0 (some [.static 1]) (some [.static 2])) []) = false ∧
    keyGet ((NestContainer.empty.addModule (fun _ => false)
        (some (.dynamic 0 (some [.static 1]) (some [.static 2])))
        []).1).dynamicModulesMetadata
      (tokenOf (.dynamic 0 (some [.static 1]) (some [.static 2])) []) =
        some ⟨some [.static 1], some [.static 2]⟩ ∧
    ((NestContainer.empty.addModule (fun _ => false)
        (some (.dynamic 0 (some [.static 1]) (some [.static 2])))
        []).1).hasToken (tokenOf (.static 1) ([] ++ [0])) = true ∧
    ((NestContainer.empty.addModule (fun _ => false)
        (some (.dynamic 0 (some [.static 1]) (some [.static 2])))
        []).1).hasToken (tokenOf (.static 2) ([] ++ [0])) = true :=
  ⟨rfl,
    (dynamic_registration_nested (fun _ => false) 0 (some [.static 1])
      (some [.static 2]) [] NestContainer.empty rfl).1,
    (dynamic_registration_nested (fun _ => false) 0 (some [.static 1])
      (some [.static 2]) [] NestContainer.empty rfl).2.1 [.static 1] rfl
      (.static 1) (by simp),
    (dynamic_registration_nested (fun _ => false) 0 (some [.static 1])
      (some [.static 2]) [] NestContainer.empty rfl).2.2 [.static 2] rfl
      (.static 2) (by simp)⟩

/-- C5: `addComponent`, `addInjectable`, `addExportedComponent` and
`addController` each fail with `UnknownModuleError` when the token is not in
the Registry and leave the container exactly as it was; when the token is
present each delegates to that token's Module Record: the record at the
token becomes the record with the contribution added, every other token's
record is untouched, the other stores are untouched, and `addComponent`
returns the derived identifier. -/
theorem unknown_token_rejection (c : NestContainer) (x : Nat) (t : Token) :
    (c.hasToken t = false →
      c.addComponent x t = (c, Except.error NestError.unknownModule) ∧
      c.addInjectable x t = (c, some NestError.unknownModule) ∧
      c.addExportedComponent x t = (c, some NestError.unknownModule) ∧
      c.addController x t = (c, some NestError.unknownModule)) ∧
    (∀ m, keyGet c.modules t = some m →
      ((c.addComponent x t).2 = Except.ok (m.addComponent x).2 ∧
        keyGet (c.addComponent x t).1.modules t = some (m.addComponent x).1 ∧
        (∀ t', t' ≠ t →
          keyGet (c.addComponent x t).1.modules t' = keyGet c.modules t') ∧
        (c.addComponent x t).1.globalModules = c.globalModules ∧
        (c.addComponent x t).1.dynamicModulesMetadata =
          c.dynamicModulesMetadata) ∧
      ((c.addInjectable x t).2 = none ∧
        keyGet (c.addInjectable x t).1.modules t = some (m.addInjectable x) ∧
        (∀ t', t' ≠ t →
          keyGet (c.addInjectable x t).1.modules t' = keyGet c.modules t') ∧
        (c.addInjectable x t).1.globalModules = c.globalModules ∧
        (c.addInjectable x t).1.dynamicModulesMetadata =
          c.dynamicModulesMetadata) ∧
      ((c.addExportedComponent x t).2 = none ∧
        keyGet (c.addExportedComponent x t).1.modules t =
          some (m.addExportedComponent x) ∧
        (∀ t', t' ≠ t →
          keyGet (c.addExportedComponent x t).1.modules t' =
            keyGet c.modules t') ∧
        (c.addExportedComponent x t).1.globalModules = c.globalModules ∧
        (c.addExportedComponent x t).1.dynamicModulesMetadata =
          c.dynamicModulesMetadata) ∧
      ((c.addController x t).2 = none ∧
        keyGet (c.addController x t).1.modules t = some (m.addRoute x) ∧
        (∀ t', t' ≠ t →
          keyGet (c.addController x t).1.modules t' = keyGet c.modules t') ∧
        (c.addController x t).1.globalModules = c.globalModules ∧
        (c.addController x t).1.dynamicModulesMetadata =
          c.dynamicModulesMetadata)) := by
  constructor
  · intro hmiss
    have hg : keyGet c.modules t = none := (keyGet_eq_none _ _).mpr hmiss
    refine ⟨?_, ?_, ?_, ?_⟩
    · unfold NestContainer.addComponent
      rw [hg]
    · unfold NestContainer.addInjectable
      rw [hg]
    · unfold NestContainer.addExportedComponent
      rw [hg]
    · unfold NestContainer.addController
      rw [hg]
  · intro m hm
    have ec : c.addComponent x t =
        ({ c with modules := keySet c.modules t (m.addComponent x).1 },
          Except.ok (m.addComponent x).2) := by
      unfold NestContainer.addComponent
      rw [hm]
    have ei : c.addInjectable x t =
        ({ c with modules := keySet c.modules t (m.addInjectable x) },
          none) := by
      unfold NestContainer.addInjectable
      rw [hm]
    have ee : c.addExportedComponent x t =
        ({ c with modules := keySet c.modules t (m.addExportedComponent x) },
          none) := by
      unfold NestContainer.addExportedComponent
      rw [hm]
    have er : c.addController x t =
        ({ c with modules := keySet c.modules t (m.addRoute x) }, none) := by
      unfold NestContainer.addController
      rw [hm]
    refine ⟨⟨?_, ?_, ?_, ?_, ?_⟩, ⟨?_, ?_, ?_, ?_, ?_⟩,
      ⟨?_, ?_, ?_, ?_, ?_⟩, ⟨?_, ?_, ?_, ?_, ?_⟩⟩
    · rw [ec]
    · rw [ec]
      exact keyGet_keySet_self _ _ _
    · intro t' ht'
      rw [ec]
      exact keyGet_keySet_other _ _ ht'
    · rw [ec]
    · rw [ec]
    · rw [ei]
    · rw [ei]
      exact keyGet_keySet_self _ _ _
    · intro t' ht'
      rw [ei]
      exact keyGet_keySet_other _ _ ht'
    · rw [ei]
    · rw [ei]
    · rw [ee]
    · rw [ee]
      exact keyGet_keySet_self _ _ _
    · intro t' ht'
      rw [ee]
      exact keyGet_keySet_other _ _ ht'
    · rw [ee]
    · rw [ee]
    · rw [er]
    · rw [er]
      exact keyGet_keySet_self _ _ _
    · intro t' ht'
      rw [er]
      exact keyGet_keySet_other _ _ ht'
    · rw [er]
    · rw [er]

theorem unknown_token_rejection_witness :
    (NestContainer.empty.hasToken ⟨9, [], none⟩ = false ∧
      NestContainer.empty.addComponent 5 ⟨9, [], none⟩ =
        (NestContainer.empty, Except.error NestError.unknownModule)) ∧
    (keyGet (⟨[(⟨0, [], none⟩, ModuleRec.new 0 [])], [], []⟩ :
        NestContainer).modules ⟨0, [], none⟩ = some (ModuleRec.new 0 []) ∧
      keyGet ((⟨[(⟨0, [], none⟩, ModuleRec.new 0 [])], [], []⟩ :
          NestContainer).addComponent 5 ⟨0, [], none⟩).1.modules
        ⟨0, [], none⟩ = some ((ModuleRec.new 0 []).addComponent 5).1) :=
  ⟨⟨rfl, ((unknown_token_rejection NestContainer.empty 5 ⟨9, [], none⟩).1
    rfl).1⟩,
   ⟨rfl, (((unknown_token_rejection
      ⟨[(⟨0, [], none⟩, ModuleRec.new 0 [])], [], []⟩ 5 ⟨0, [], none⟩).2
      (ModuleRec.new 0 []) rfl).1).2.1⟩⟩

/-- C6: `addRelatedModule(relatedModuleRef, ownerToken)` never raises: with an
unknown owner token it returns the container unchanged; with a known owner it
normalizes the related reference exactly as `addModule` does
(`extractMetadata`) and recomputes the related token from the owner record's
own scope extended by the owner's type; when that token is not registered the
call is again a complete no-op (nothing of substance is added), and when it
is registered the owner's record gains it as a related module. -/
theorem addRelatedModule_tolerant (c : NestContainer) (r : ModuleRef)
    (t : Token) (hu : c.uniqueKeys) :
    (c.hasToken t = false → c.addRelatedModule r t = c) ∧
    (∀ m, keyGet c.modules t = some m →
      (c.hasToken ⟨(extractMetadata r).1, m.scope ++ [m.metatype],
          (extractMetadata r).2⟩ = false →
        c.addRelatedModule r t = c) ∧
      (c.hasToken ⟨(extractMetadata r).1, m.scope ++ [m.metatype],
          (extractMetadata r).2⟩ = true →
        keyGet (c.addRelatedModule r t).modules t =
          some (m.addRelatedModule (some ⟨(extractMetadata r).1,
            m.scope ++ [m.metatype], (extractMetadata r).2⟩)) ∧
        (⟨(extractMetadata r).1, m.scope ++ [m.metatype],
            (extractMetadata r).2⟩ : Token) ∈
          (m.addRelatedModule (some ⟨(extractMetadata r).1,
            m.scope ++ [m.metatype], (extractMetadata r).2⟩)).relatedModules)) := by
  constructor
  · intro hmiss
    have hg : keyGet c.modules t = none := (keyGet_eq_none _ _).mpr hmiss
    unfold NestContainer.addRelatedModule
    rw [hg]
  · intro m hm
    constructor
    · intro hmiss
      unfold NestContainer.addRelatedModule
      rw [hm]
      simp only [hasToken_eq] at hmiss
      simp only [hasToken_eq, hmiss, Bool.false_eq_true, if_false,
        ModuleRec.addRelatedModule]
      rw [keySet_get_self hm hu]
    · intro hhit
      unfold NestContainer.addRelatedModule
      rw [hm]
      simp only [hasToken_eq] at hhit
      simp only [hasToken_eq, hhit, if_true]
      exact ⟨keyGet_keySet_self _ _ _, mem_addRelatedModule_some _ _⟩

theorem addRelatedModule_tolerant_witness :
    ((⟨[(⟨0, [], none⟩, ModuleRec.new 0 []),
        (⟨1, [0], none⟩, ModuleRec.new 1 [0])], [], []⟩ :
          NestContainer).uniqueKeys ∧
      (⟨[(⟨0, [], none⟩, ModuleRec.new 0 []),
        (⟨1, [0], none⟩, ModuleRec.new 1 [0])], [], []⟩ :
          NestContainer).hasToken ⟨9, [], none⟩ = false ∧
      (⟨[(⟨0, [], none⟩, ModuleRec.new 0 []),
        (⟨1, [0], none⟩, ModuleRec.new 1 [0])], [], []⟩ :
          NestContainer).addRelatedModule (.static 1) ⟨9, [], none⟩ =
        ⟨[(⟨0, [], none⟩, ModuleRec.new 0 []),
          (⟨1, [0], none⟩, ModuleRec.new 1 [0])], [], []⟩) ∧
    (keyGet (⟨[(⟨0, [], none⟩, ModuleRec.new 0 []),
        (⟨1, [0], none⟩, ModuleRec.new 1 [0])], [], []⟩ :
          NestContainer).modules ⟨0, [], none⟩ = some (ModuleRec.new 0 []) ∧
      keyGet ((⟨[(⟨0, [], none⟩, ModuleRec.new 0 []),
          (⟨1, [0], none⟩, ModuleRec.new 1 [0])], [], []⟩ :
            NestContainer).addRelatedModule (.static 1)
          ⟨0, [], none⟩).modules ⟨0, [], none⟩ =
        some ((ModuleRec.new 0 []).addRelatedModule
          (some ⟨1, [0], none⟩))) :=
  ⟨⟨by unfold NestContainer.uniqueKeys; decide, rfl,
    (addRelatedModule_tolerant
      ⟨[(⟨0, [], none⟩, ModuleRec.new 0 []),
        (⟨1, [0], none⟩, ModuleRec.new 1 [0])], [], []⟩
      (.static 1) ⟨9, [], none⟩
      (by unfold NestContainer.uniqueKeys; decide)).1 rfl⟩,
   ⟨rfl,
    ((addRelatedModule_tolerant
      ⟨[(⟨0, [], none⟩, ModuleRec.new 0 []),
        (⟨1, [0], none⟩, ModuleRec.new 1 [0])], [], []⟩
      (.static 1) ⟨0, [], none⟩
      (by unfold NestContainer.uniqueKeys; decide)).2 (ModuleRec.new 0 [])
      rfl).2 rfl |>.1⟩⟩
